import Mathlib

/-!
Verification of the path-addressing utility family (`toPath`, `get`, `pick`,
`combineEmpty`) of the repository.  The JavaScript/TypeScript sources are
shallowly embedded: JS values become the inductive `JsValue`, property access
becomes `jsGet`, and each source function is translated line by line.  The
repository ships two implementations of `get` (a recursive one and an
accumulator-based one, both in the same source file); they are embedded in
namespaces `V1` and `V2` respectively.
-/

/-- A JavaScript value: `null`, `undefined`, booleans, numbers, strings,
arrays and plain objects (ordered key/value lists, keys unique). -/
inductive JsValue where
  | vNull
  | vUndefined
  | vBool (b : Bool)
  | vNum (n : Int)
  | vStr (s : String)
  | vArr (elems : List JsValue)
  | vObj (fields : List (String × JsValue))

/-- JS `x == null`, true exactly for `null` and `undefined`. -/
def isNullish : JsValue → Bool
  | .vNull => true
  | .vUndefined => true
  | _ => false

/-- Decimal value of a digit list (standard base-10 fold). -/
def digitsVal (l : List Char) : Nat :=
  l.foldl (fun acc c => acc * 10 + (c.toNat - 48)) 0

/-- A string that is a canonical decimal numeral (no leading zeros, nonempty)
denotes a JS array index; anything else does not.  Models the ECMAScript
array-index property rule for the keys produced by the tokenizer. -/
def canonIndex (s : String) : Option Nat :=
  match s.data with
  | [] => none
  | c :: rest =>
    if (c :: rest).all Char.isDigit && (c ≠ '0' || rest.isEmpty) then
      some (digitsVal (c :: rest))
    else none

/-- JS property access `v[k]` for a string key `k`: object field lookup,
array indexing (plus `length`), string indexing (plus `length`); every other
access yields `undefined`.  Callers in the embedded code guard against
accessing `null`/`undefined`, mirroring the source. -/
def jsGet : JsValue → String → JsValue
  | .vObj fields, k => (fields.lookup k).getD .vUndefined
  | .vArr elems, k =>
    if k = "length" then .vNum elems.length
    else
      match canonIndex k with
      | some n => elems.getD n .vUndefined
      | none => .vUndefined
  | .vStr s, k =>
    if k = "length" then .vNum s.data.length
    else
      match canonIndex k with
      | some n =>
        match s.data.get? n with
        | some c => .vStr (String.mk [c])
        | none => .vUndefined
      | none => .vUndefined
  | _, _ => .vUndefined

/-- JS object assignment `o[k] = v`: replace the value in place if the key
exists, otherwise append the new binding. -/
def objSet : List (String × JsValue) → String → JsValue → List (String × JsValue)
  | [], k, v => [(k, v)]
  | (k', v') :: rest, k, v =>
    if k' = k then (k, v) :: rest else (k', v') :: objSet rest k v

/-- `'.'.repeat(n)`: a string of `n` dots. -/
def dotsStr (n : Nat) : String := String.mk (List.replicate n '.')

/-- Loop body of `combineEmpty` (src/combineEmpty.ts lines 5-24): scan the
items keeping a count of consecutive empty strings; a non-empty item flushes
the count as a dot run glued onto the item; a trailing run is flushed as a
dots-only item. -/
def combineEmptyAux : List String → Nat → List String
  | [], n => if 0 < n then [dotsStr n] else []
  | item :: rest, n =>
    if item = "" then combineEmptyAux rest (n + 1)
    else if 0 < n then (dotsStr n ++ item) :: combineEmptyAux rest 0
    else item :: combineEmptyAux rest 0

/-- `combineEmpty` (src/combineEmpty.ts lines 1-27). -/
def combineEmpty (arr : List String) : List String := combineEmptyAux arr 0

/-!
Tokenizer (`toPath`/`stringToPath`, src/unnamed/part_010).  The source drives
the regex
`/[^.[\]]+|\[\]|\[(?:(-?\d+(?:\.\d+)?)|(["'])((?:(?!\2)[^\\]|\\.)*?)\2)\]|(?=(?:\.|\[\])(?:\.|\[\]|$))/g`
with a `while ((match = re.exec(string)))` loop.  We embed the regex as a
deterministic matcher over character lists (alternatives tried in order,
greedy character classes, lazy quoted bodies, and the trailing zero-width
lookahead), and the exec loop as a fuel-indexed loop: JS `exec` does not
advance `lastIndex` past a zero-length match, so the source loop can run
forever; `none` means the fuel ran out, i.e. the loop did not terminate
within the given budget.
-/

/-- The single-quote character, written via its code point. -/
def singleQuoteChar : Char := Char.ofNat 39

/-- `string.replace(/\\(\\)?/g, '$1')` from part_010 line 24: a double
backslash becomes a single one, a lone backslash is removed. -/
def stripBackslashes : List Char → List Char
  | [] => []
  | '\\' :: '\\' :: rest => '\\' :: stripBackslashes rest
  | '\\' :: rest => stripBackslashes rest
  | c :: rest => c :: stripBackslashes rest

/-- Characters matched by the class `[^.[\]]`. -/
def isPlainChar (c : Char) : Bool := c ≠ '.' && c ≠ '[' && c ≠ ']'

/-- Greedy parse of `-?\d+(?:\.\d+)?`: returns the matched characters and the
remaining input, or `none` if no number starts here. -/
def matchNumber (r : List Char) : Option (List Char × List Char) :=
  let signAndRest : List Char × List Char :=
    match r with
    | '-' :: t => (['-'], t)
    | _ => ([], r)
  let sign := signAndRest.1
  let r1 := signAndRest.2
  let ds := r1.takeWhile Char.isDigit
  if ds.isEmpty then none
  else
    let r2 := r1.drop ds.length
    match r2 with
    | '.' :: r3 =>
      let ds2 := r3.takeWhile Char.isDigit
      if ds2.isEmpty then some (sign ++ ds, r2)
      else some (sign ++ ds ++ '.' :: ds2, r3.drop ds2.length)
    | _ => some (sign ++ ds, r2)

/-- Lazy body of a quoted bracket key `(?:(?!\2)[^\\]|\\.)*?` followed by the
closing quote `\2` and `\]`: returns the raw captured characters when the
input starts with `body q ]`, and `none` otherwise (an unescaped quote not
followed by `]` kills the alternative, as the body atoms cannot consume it). -/
def scanContent (q : Char) : List Char → Option (List Char)
  | [] => none
  | c :: rest =>
    if c = q then
      match rest with
      | ']' :: _ => some []
      | _ => none
    else if c = '\\' then
      match rest with
      | c2 :: rest2 => (scanContent q rest2).map (fun cont => '\\' :: c2 :: cont)
      | [] => none
    else (scanContent q rest).map (fun cont => c :: cont)

/-- The quoted-key alternative `\[(["'])((?:(?!\2)[^\\]|\\.)*?)\2\]`, tried on
the input just after the opening `[`.  Returns (length, isWildcard, group 1,
group 3). -/
def tryQuoted (r : List Char) : Option (Nat × Bool × Option String × Option String) :=
  match r with
  | q :: r2 =>
    if q = '"' || q = singleQuoteChar then
      match scanContent q r2 with
      | some content => some (content.length + 4, false, none, some (String.mk content))
      | none => none
    else none
  | [] => none

/-- Second half of the zero-width lookahead: `(?:\.|\[\]|$)`. -/
def lookTail : List Char → Bool
  | [] => true
  | '.' :: _ => true
  | '[' :: ']' :: _ => true
  | _ => false

/-- The zero-width lookahead `(?=(?:\.|\[\])(?:\.|\[\]|$))`. -/
def lookaheadOk : List Char → Bool
  | '.' :: r => lookTail r
  | '[' :: ']' :: r => lookTail r
  | _ => false

/-- Try the regex at the current position (alternatives in source order:
plain run, `[]`, bracketed number, bracketed quoted key, lookahead).
Returns (match length, matched text is `[]`, group 1, group 3). -/
def tryMatch (rest : List Char) : Option (Nat × Bool × Option String × Option String) :=
  let run := rest.takeWhile isPlainChar
  if run.isEmpty then
    match rest with
    | '[' :: ']' :: _ => some (2, true, none, none)
    | '[' :: r =>
      match matchNumber r with
      | some (numChars, r2) =>
        match r2 with
        | ']' :: _ => some (numChars.length + 2, false, some (String.mk numChars), none)
        | _ => tryQuoted r
      | none => tryQuoted r
    | _ => if lookaheadOk rest then some (0, false, none, none) else none
  else some (run.length, false, none, none)

/-- Leftmost match search from position `pos` (the scan `exec` performs),
with an explicit step count for structural recursion. -/
def findMatchAux (cs : List Char) : Nat → Nat → Option (Nat × Nat × Bool × Option String × Option String)
  | 0, _ => none
  | steps + 1, pos =>
    match tryMatch (cs.drop pos) with
    | some (len, isW, g1, g3) => some (pos, len, isW, g1, g3)
    | none => findMatchAux cs steps (pos + 1)

/-- Leftmost match of the regex at or after `pos`. -/
def findMatch (cs : List Char) (pos : Nat) :
    Option (Nat × Nat × Bool × Option String × Option String) :=
  findMatchAux cs (cs.length + 1 - pos) pos

/-- Key extraction, part_010 line 28:
`match[0] === '[]' ? '[]' : (match[1] || match[3] || '')`. -/
def keyOf (isW : Bool) (g1 g3 : Option String) : String :=
  if isW then "[]"
  else
    let s1 := g1.getD ""
    if s1 = "" then g3.getD "" else s1

/-- The `while ((match = rePropName.exec(string)))` loop, part_010 lines
27-32, with fuel.  A zero-length match leaves `lastIndex` unchanged exactly
as JS `exec` does. -/
def execLoop (cs : List Char) : Nat → List String → Nat → Option (List String)
  | 0, _, _ => none
  | fuel + 1, acc, pos =>
    match findMatch cs pos with
    | none => some acc
    | some (idx, len, isW, g1, g3) =>
      let key := keyOf isW g1 g3
      execLoop cs fuel (if key = "" then acc else acc ++ [key]) (idx + len)

/-- A `toPath` argument: `null`/`undefined`, a path string, or an already
split array of segments. -/
inductive JsPath where
  | nullPath
  | strPath (s : String)
  | arrPath (l : List String)

/-- `stringToPath` (part_010 lines 10-36): null check, backslash stripping,
then the exec loop.  The function-local `cache` object is always empty and
has no observable effect, so it is not modelled. -/
def stringToPath (fuel : Nat) (s : String) : Option (List String) :=
  execLoop (stripBackslashes s.data) fuel [] 0

/-- `toPath` (part_010 lines 1-8): arrays are copied through, everything
else goes to `stringToPath` (which maps `null` to `[]` before any parsing). -/
def toPath (fuel : Nat) : JsPath → Option (List String)
  | .nullPath => some []
  | .strPath s => stringToPath fuel s
  | .arrPath l => some l

/-!
Resolvers (`get`, src/unnamed/part_003).  The file contains two
implementations.  The first (lines 3-52) resolves wildcards recursively,
collecting per-element results into nested arrays; the second (lines 57-113)
pushes every leaf into one flat accumulator.  They are embedded as `V1` and
`V2`.  Both share the identical standard (no-wildcard) walk, embedded once as
`stdWalk`, and the identical top-level default fallback, embedded as
`fallbackDefault`.
-/

/-- Standard `get` walk (part_003 lines 16-22 and 71-77):
`current = current != null ? current[key] : undefined; if (current == null)
return defaultValue;` per key, then `current !== undefined ? current :
defaultValue`. -/
def stdWalk : JsValue → List String → JsValue → JsValue
  | c, [], d =>
    match c with
    | .vUndefined => d
    | _ => c
  | c, k :: rest, d =>
    let c2 := if isNullish c then JsValue.vUndefined else jsGet c k
    if isNullish c2 then d else stdWalk c2 rest d

/-- Top-level wildcard fallback (part_003 lines 13 and 68):
`defaultValue !== undefined ? defaultValue : []`. -/
def fallbackDefault (d : JsValue) : JsValue :=
  match d with
  | .vUndefined => .vArr []
  | _ => d

namespace V1

/-- `processWildcardGet` (part_003 lines 25-52), recursing on the remaining
key suffix: `keys[index]` is the head, `index === keys.length - 1` means the
tail is empty, `index >= keys.length` means the suffix is empty.  Returns the
produced JS array as a list, `none` standing for `undefined`. -/
def processWildcardGet : List String → JsValue → Option (List JsValue)
  | [] => fun _ => none
  | key :: rest =>
    let recur := processWildcardGet rest
    fun current =>
      if isNullish current then none
      else if key = "[]" then
        match current with
        | .vArr elems =>
          let rs := elems.filterMap (fun e => (recur e).map JsValue.vArr)
          if rs.isEmpty then none else some rs
        | _ => none
      else
        match rest with
        | [] =>
          match jsGet current key with
          | .vUndefined => none
          | v => some [v]
        | _ => recur (jsGet current key)

/-- Body of `get` (part_003 lines 3-23) after tokenization:
wildcard dispatch, `result !== undefined && result.length > 0 ? result :
(defaultValue !== undefined ? defaultValue : [])`, else the standard walk. -/
def getKeys (s : JsValue) (keys : List String) (d : JsValue) : JsValue :=
  if keys.contains "[]" then
    match processWildcardGet keys s with
    | some rs => if 0 < rs.length then .vArr rs else fallbackDefault d
    | none => fallbackDefault d
  else stdWalk s keys d

/-- `get` (part_003 lines 3-23), including the `toPath` call; `none` means
the call does not terminate within the tokenizer fuel. -/
def get (fuel : Nat) (s : JsValue) (path : JsPath) (d : JsValue) : Option JsValue :=
  (toPath fuel path).map (fun keys => getKeys s keys d)

end V1

namespace V2

/-- `processWildcardGet` (part_003 lines 80-113), restructured key by key:
walking to the first `[]` with a null check before every access, fanning out
over array elements (re-entering with the source's top `current == null`
guard), and pushing the walked value at the end when it is not `undefined`.
Returns the list of values appended to the shared `result` accumulator. -/
def processWildcardGet : List String → JsValue → List JsValue
  | [] => fun v =>
    match v with
    | .vUndefined => []
    | _ => [v]
  | k :: rest =>
    let recur := processWildcardGet rest
    fun v =>
      if k = "[]" then
        match v with
        | .vArr elems => elems.flatMap (fun e => if isNullish e then [] else recur e)
        | _ => []
      else if isNullish v then [] else recur (jsGet v k)

/-- Body of `get` (part_003 lines 57-78) after tokenization. -/
def getKeys (s : JsValue) (keys : List String) (d : JsValue) : JsValue :=
  if keys.contains "[]" then
    let rs := processWildcardGet keys s
    if 0 < rs.length then .vArr rs else fallbackDefault d
  else stdWalk s keys d

/-- `get` (part_003 lines 57-78), including the `toPath` call. -/
def get (fuel : Nat) (s : JsValue) (path : JsPath) (d : JsValue) : Option JsValue :=
  (toPath fuel path).map (fun keys => getKeys s keys d)

end V2

/-!
Projector (`pick` with `processWildcardPath`, src/combineEmpty.ts lines
73-134; the same implementation also appears in src/unnamed/part_005).
-/

/-- `processWildcardPath` (src/combineEmpty.ts lines 105-134): rebuilds a
one-key record per non-wildcard key, fans out over arrays at `[]`, prunes
branches that do not reach a defined leaf (`none` stands for `undefined`). -/
def processWildcardPath : List String → JsValue → Option JsValue
  | [] => fun _ => none
  | key :: rest =>
    let recur := processWildcardPath rest
    fun current =>
      if isNullish current then none
      else if key = "[]" then
        match current with
        | .vArr elems =>
          let rs := elems.filterMap recur
          if rs.isEmpty then none else some (.vArr rs)
        | _ => none
      else
        let nextValue := jsGet current key
        match rest with
        | [] =>
          match nextValue with
          | .vUndefined => none
          | v => some (.vObj [(key, v)])
        | _ =>
          match recur nextValue with
          | some r => some (.vObj [(key, r)])
          | none => none

/-- The standard (no-wildcard) `pick` walk, part_003-style loop with the
check `current != null` before every access (src/combineEmpty.ts lines
90-95).  `none` means the loop stopped before consuming all keys. -/
def derefChecked : JsValue → List String → Option JsValue
  | v, [] => some v
  | v, k :: ks => if isNullish v then none else derefChecked (jsGet v k) ks

/-- The assignment decision of `pick`'s standard branch (src/combineEmpty.ts
lines 89-98): assign `result[keys[keys.length-1]] = current` exactly when the
keys are nonempty, the walk completed, and the final value is defined. -/
def stdPickResult (s : JsValue) (keys : List String) : Option (String × JsValue) :=
  match keys with
  | [] => none
  | _ :: _ =>
    match derefChecked s keys with
    | some v =>
      match v with
      | .vUndefined => none
      | _ => some (keys.getLastD "", v)
    | none => none

/-- One iteration of `pick`'s `props.forEach` (src/combineEmpty.ts lines
81-100): wildcard paths assign `result[keys[0]] = processWildcardPath(...)`
unconditionally (JS stores `undefined` when the subtree is pruned away),
other paths assign via the standard walk. -/
def pickStep (s : JsValue) (acc : List (String × JsValue)) (keys : List String) :
    List (String × JsValue) :=
  if keys.contains "[]" then
    objSet acc (keys.headD "") ((processWildcardPath keys s).getD JsValue.vUndefined)
  else
    match stdPickResult s keys with
    | some (k, v) => objSet acc k v
    | none => acc

/-- Body of `pick` (src/combineEmpty.ts lines 73-103) on already tokenized
paths: `null`/`undefined` source gives `{}`, otherwise the paths are folded
left to right into one result object. -/
def pickKeys (s : JsValue) (paths : List (List String)) : JsValue :=
  if isNullish s then .vObj []
  else .vObj (paths.foldl (pickStep s) [])

/-- Tokenize every path string of a `pick` call; `none` if any of the
`toPath` calls fails to terminate within the fuel. -/
def tokenizeAll (fuel : Nat) : List String → Option (List (List String))
  | [] => some []
  | p :: ps =>
    match stringToPath fuel p with
    | some ks => (tokenizeAll fuel ps).map (ks :: ·)
    | none => none

/-- `pick` (src/combineEmpty.ts lines 73-103) on a list of path strings,
including the per-path `toPath` calls. -/
def pick (fuel : Nat) (s : JsValue) (paths : List String) : Option JsValue :=
  (tokenizeAll fuel paths).map (pickKeys s)

/-!
Helper lemmas.
-/

lemma dotsStr_zero_append (t : String) : dotsStr 0 ++ t = t := by
  cases t
  rfl

lemma combineEmptyAux_cons_ne (t : String) (rest : List String) (n : Nat) (ht : t ≠ "") :
    combineEmptyAux (t :: rest) n = (dotsStr n ++ t) :: combineEmptyAux rest 0 := by
  cases n with
  | zero =>
    simp only [combineEmptyAux, ht, if_false, Nat.lt_irrefl, dotsStr_zero_append]
  | succ m =>
    simp only [combineEmptyAux, ht, if_false, Nat.succ_pos, if_true]

lemma combineEmptyAux_replicate (k : Nat) (l : List String) (n : Nat) :
    combineEmptyAux (List.replicate k "" ++ l) n = combineEmptyAux l (n + k) := by
  induction k generalizing n with
  | zero => simp [List.replicate]
  | succ m ih =>
    rw [List.replicate_succ, List.cons_append,
      show combineEmptyAux ("" :: (List.replicate m "" ++ l)) n
        = combineEmptyAux (List.replicate m "" ++ l) (n + 1) from by
          simp [combineEmptyAux],
      ih (n + 1)]
    congr 1
    omega

lemma combineEmpty_eq_self (l : List String) (h : ∀ s ∈ l, s ≠ "") :
    combineEmpty l = l := by
  induction l with
  | nil => rfl
  | cons t rest ih =>
    have ht : t ≠ "" := h t (by simp)
    have hrest := ih (fun s hs => h s (List.mem_cons_of_mem _ hs))
    rw [combineEmpty] at hrest ⊢
    rw [combineEmptyAux_cons_ne t rest 0 ht, dotsStr_zero_append, hrest]

lemma string_mk_cons_ne_empty (c : Char) (l : List Char) : String.mk (c :: l) ≠ "" := by
  intro h
  exact List.noConfusion (show c :: l = ([] : List Char) from congrArg String.data h)

lemma dotsStr_ne_empty (n : Nat) (hn : 0 < n) : dotsStr n ≠ "" := by
  cases n with
  | zero => exact absurd hn (by omega)
  | succ m => exact string_mk_cons_ne_empty '.' (List.replicate m '.')

lemma append_ne_empty_right (s t : String) (ht : t ≠ "") : s ++ t ≠ "" := by
  intro h
  apply ht
  cases s with
  | mk ds =>
    cases t with
    | mk dt =>
      have h2 : ds ++ dt = ([] : List Char) := congrArg String.data h
      have h3 := (List.append_eq_nil.mp h2).2
      rw [h3]

lemma combineEmptyAux_mem_ne_empty (l : List String) :
    ∀ (n : Nat) (s : String), s ∈ combineEmptyAux l n → s ≠ "" := by
  induction l with
  | nil =>
    intro n s hs
    by_cases hn : 0 < n
    · simp only [combineEmptyAux, hn, if_true, List.mem_singleton] at hs
      rw [hs]
      exact dotsStr_ne_empty n hn
    · simp [combineEmptyAux, hn] at hs
  | cons t rest ih =>
    intro n s hs
    by_cases ht : t = ""
    · rw [ht] at hs
      simp only [combineEmptyAux, if_true] at hs
      exact ih (n + 1) s hs
    · rw [combineEmptyAux_cons_ne t rest n ht] at hs
      rcases List.mem_cons.mp hs with h1 | h2
      · rw [h1]
        exact append_ne_empty_right _ _ ht
      · exact ih 0 s h2

lemma filterMap_length_eq_countP {α β : Type} (l : List α) (f : α → Option β) :
    (l.filterMap f).length = l.countP (fun a => (f a).isSome) := by
  induction l with
  | nil => rfl
  | cons a rest ih =>
    cases h : f a with
    | none => simp [List.filterMap_cons, h, List.countP_cons, ih]
    | some b => simp [List.filterMap_cons, h, List.countP_cons, ih]

lemma filterMap_eq_filter_map {α β : Type} (l : List α) (f : α → Option β) (d : β) :
    l.filterMap f
      = (l.filter (fun a => (f a).isSome)).map (fun a => (f a).getD d) := by
  induction l with
  | nil => rfl
  | cons a rest ih =>
    cases h : f a with
    | none => simp [List.filterMap_cons, List.filter_cons, h, ih]
    | some b => simp [List.filterMap_cons, List.filter_cons, h, ih]

lemma countP_congr_mem {α : Type} (l : List α) (p q : α → Bool)
    (h : ∀ a ∈ l, p a = q a) : l.countP p = l.countP q := by
  induction l with
  | nil => rfl
  | cons a rest ih =>
    rw [List.countP_cons, List.countP_cons, h a (by simp),
      ih (fun b hb => h b (List.mem_cons_of_mem _ hb))]

lemma filter_congr_mem {α : Type} (l : List α) (p q : α → Bool)
    (h : ∀ a ∈ l, p a = q a) : l.filter p = l.filter q := by
  induction l with
  | nil => rfl
  | cons a rest ih =>
    rw [List.filter_cons, List.filter_cons, h a (by simp),
      ih (fun b hb => h b (List.mem_cons_of_mem _ hb))]

lemma map_congr_mem {α β : Type} (l : List α) (f g : α → β)
    (h : ∀ a ∈ l, f a = g a) : l.map f = l.map g := by
  induction l with
  | nil => rfl
  | cons a rest ih =>
    rw [List.map_cons, List.map_cons, h a (by simp),
      ih (fun b hb => h b (List.mem_cons_of_mem _ hb))]

/-!
Claim theorems.
-/

/-- C3: `combineEmpty` rewrites every maximal run of `n` consecutive empty
segments followed by a non-empty segment `t` into the single segment of `n`
dots glued onto `t`, emits segments not preceded by empties unchanged, and
rewrites a trailing run of `n` empties into a single segment of `n` dots;
in particular `combineEmpty ["a","","","c"] = ["a","..c"]`,
`combineEmpty [""] = ["."]`, `combineEmpty ["",""] = [".."]` and
`combineEmpty [] = []`. -/
theorem combineEmpty_run_spec :
    (∀ (n : Nat) (t : String) (rest : List String), t ≠ "" →
        combineEmpty (List.replicate n "" ++ t :: rest)
          = (dotsStr n ++ t) :: combineEmpty rest)
    ∧ (∀ (t : String) (rest : List String), t ≠ "" →
        combineEmpty (t :: rest) = t :: combineEmpty rest)
    ∧ (∀ n : Nat, 0 < n → combineEmpty (List.replicate n "") = [dotsStr n])
    ∧ combineEmpty ["a", "", "", "c"] = ["a", "..c"]
    ∧ combineEmpty [""] = ["."]
    ∧ combineEmpty ["", ""] = [".."]
    ∧ combineEmpty ([] : List String) = [] := by
  refine ⟨?_, ?_, ?_, by decide, by decide, by decide, rfl⟩
  · intro n t rest ht
    have h1 := combineEmptyAux_replicate n (t :: rest) 0
    rw [Nat.zero_add] at h1
    rw [combineEmpty, h1, combineEmptyAux_cons_ne t rest n ht]
    rfl
  · intro t rest ht
    rw [combineEmpty, combineEmptyAux_cons_ne t rest 0 ht, dotsStr_zero_append]
    rfl
  · intro n hn
    have h1 := combineEmptyAux_replicate n ([] : List String) 0
    rw [Nat.zero_add] at h1
    rw [combineEmpty, show List.replicate n ("" : String)
        = List.replicate n "" ++ ([] : List String) from (List.append_nil _).symm,
      h1]
    simp [combineEmptyAux, hn]

/-- Witness for C3 at a concrete run. -/
theorem combineEmpty_run_spec_witness :
    combineEmpty (List.replicate 2 "" ++ "x" :: [])
      = (dotsStr 2 ++ "x") :: combineEmpty [] :=
  combineEmpty_run_spec.1 2 "x" [] (by decide)

/-- C8: `combineEmpty` is the identity on every list without an empty
segment; consequently `combineEmpty` applied to any terminating tokenization
without empty segments returns it unchanged. -/
theorem combineEmpty_identity_roundtrip :
    (∀ l : List String, (∀ s ∈ l, s ≠ "") → combineEmpty l = l)
    ∧ (∀ (fuel : Nat) (p : JsPath) (r : List String),
        toPath fuel p = some r → (∀ s ∈ r, s ≠ "") → combineEmpty r = r) :=
  ⟨combineEmpty_eq_self, fun _ _ r _ h => combineEmpty_eq_self r h⟩

/-- Witness for C8: identity on a concrete empty-free list, and on the
tokenization of the path `x[0]`. -/
theorem combineEmpty_identity_roundtrip_witness :
    combineEmpty ["a", "b"] = ["a", "b"] ∧ combineEmpty ["0"] = ["0"] :=
  ⟨combineEmpty_identity_roundtrip.1 ["a", "b"] (by decide),
   combineEmpty_identity_roundtrip.2 9 (.strPath "x[0]") ["0"] rfl (by decide)⟩

/-- C10: every segment `combineEmpty` outputs is non-empty, and consequently
`combineEmpty` is idempotent. -/
theorem combineEmpty_nonempty_idempotent :
    (∀ (l : List String) (s : String), s ∈ combineEmpty l → s ≠ "")
    ∧ (∀ l : List String, combineEmpty (combineEmpty l) = combineEmpty l) := by
  constructor
  · intro l s hs
    exact combineEmptyAux_mem_ne_empty l 0 s hs
  · intro l
    exact combineEmpty_eq_self (combineEmpty l)
      (fun s hs => combineEmptyAux_mem_ne_empty l 0 s hs)

/-- Witness for C10 at concrete inputs. -/
theorem combineEmpty_nonempty_idempotent_witness :
    ("." : String) ≠ ""
    ∧ combineEmpty (combineEmpty ["", "a", ""]) = combineEmpty ["", "a", ""] :=
  ⟨combineEmpty_nonempty_idempotent.1 [""] "." (by decide),
   combineEmpty_nonempty_idempotent.2 ["", "a", ""]⟩

lemma isEmpty_eq_length_zero {α : Type} (l : List α) : l.isEmpty = true ↔ l.length = 0 := by
  cases l <;> simp

/-- C4: for every tokenized path containing a wildcard segment, whenever the
wildcard resolution produces no result, both `get` implementations return the
caller-supplied default, or the empty array when no default was supplied;
moreover a wildcard segment over a non-array value always produces no
result. -/
theorem get_empty_wildcard_default :
    (∀ (s : JsValue) (keys : List String) (d : JsValue),
        keys.contains "[]" = true → V1.processWildcardGet keys s = none →
        V1.getKeys s keys d = fallbackDefault d)
    ∧ (∀ (s : JsValue) (keys : List String) (d : JsValue),
        keys.contains "[]" = true → V2.processWildcardGet keys s = [] →
        V2.getKeys s keys d = fallbackDefault d)
    ∧ (∀ (rest : List String) (s : JsValue), (∀ l, s ≠ JsValue.vArr l) →
        V1.processWildcardGet ("[]" :: rest) s = none)
    ∧ fallbackDefault JsValue.vUndefined = JsValue.vArr [] := by
  refine ⟨?_, ?_, ?_, rfl⟩
  · intro s keys d h1 h2
    have hmem : "[]" ∈ keys := by simpa using h1
    simp [V1.getKeys, h1, h2]
    intro hno
    exact absurd hmem hno
  · intro s keys d h1 h2
    have hmem : "[]" ∈ keys := by simpa using h1
    simp [V2.getKeys, h1, h2]
    intro hno
    exact absurd hmem hno
  · intro rest s h
    cases s
    case vArr l => exact absurd rfl (h l)
    all_goals rfl

/-- Witness for C4: both scenario shapes from the claim, with the paths
supplied in tokenized form. -/
theorem get_empty_wildcard_default_witness :
    V1.getKeys (JsValue.vObj [("a", JsValue.vObj [("b", JsValue.vObj [("c", JsValue.vNum 1)])])])
        ["a", "[]", "b", "c"] (JsValue.vStr "fallback")
      = fallbackDefault (JsValue.vStr "fallback")
    ∧ V2.getKeys (JsValue.vObj [("a", JsValue.vArr [JsValue.vObj []])])
        ["a", "[]", "b", "c"] JsValue.vUndefined
      = fallbackDefault JsValue.vUndefined :=
  ⟨get_empty_wildcard_default.1 _ ["a", "[]", "b", "c"] _ (by decide) rfl,
   get_empty_wildcard_default.2.1 _ ["a", "[]", "b", "c"] _ (by decide) rfl⟩

/-- C5: at a wildcard segment over an array, the recursive resolver's result
level is exactly the in-order list of the successfully resolving elements'
results: its length equals the number of resolving elements (so `N` when all
`N` resolve), there are no holes, and the level collapses to no result
exactly when no element resolves. -/
theorem get_wildcard_fanout (elems : List JsValue) (rest : List String) :
    (∀ rs, V1.processWildcardGet ("[]" :: rest) (JsValue.vArr elems) = some rs →
        rs.length = elems.countP (fun e => (V1.processWildcardGet rest e).isSome)
        ∧ rs = (elems.filter (fun e => (V1.processWildcardGet rest e).isSome)).map
            (fun e => JsValue.vArr ((V1.processWildcardGet rest e).getD [])))
    ∧ (V1.processWildcardGet ("[]" :: rest) (JsValue.vArr elems) = none ↔
        elems.countP (fun e => (V1.processWildcardGet rest e).isSome) = 0) := by
  have hdef : V1.processWildcardGet ("[]" :: rest) (JsValue.vArr elems)
      = (if (elems.filterMap
              (fun e => (V1.processWildcardGet rest e).map JsValue.vArr)).isEmpty
         then none
         else some (elems.filterMap
              (fun e => (V1.processWildcardGet rest e).map JsValue.vArr))) := rfl
  have hsome : ∀ e, ((V1.processWildcardGet rest e).map JsValue.vArr).isSome
      = (V1.processWildcardGet rest e).isSome := by
    intro e
    cases V1.processWildcardGet rest e <;> rfl
  have hlen : (elems.filterMap
        (fun e => (V1.processWildcardGet rest e).map JsValue.vArr)).length
      = elems.countP (fun e => (V1.processWildcardGet rest e).isSome) := by
    rw [filterMap_length_eq_countP]
    exact countP_congr_mem _ _ _ (fun e _ => hsome e)
  constructor
  · intro rs hrs
    rw [hdef] at hrs
    by_cases he : (elems.filterMap
        (fun e => (V1.processWildcardGet rest e).map JsValue.vArr)).isEmpty = true
    · rw [if_pos he] at hrs
      exact absurd hrs (by simp)
    · rw [if_neg he] at hrs
      injection hrs with hrs2
      rw [← hrs2]
      constructor
      · exact hlen
      · rw [filterMap_eq_filter_map _ _ (JsValue.vArr []),
          filter_congr_mem _ _ _ (fun e _ => hsome e)]
        exact map_congr_mem _ _ _ (fun e _ => by
          cases V1.processWildcardGet rest e <;> rfl)
  · rw [hdef]
    by_cases he : (elems.filterMap
        (fun e => (V1.processWildcardGet rest e).map JsValue.vArr)).isEmpty = true
    · rw [if_pos he]
      have h0 := (isEmpty_eq_length_zero _).mp he
      constructor
      · intro _
        rw [← hlen]
        exact h0
      · intro _
        rfl
    · rw [if_neg he]
      constructor
      · intro hcontra
        exact absurd hcontra (by simp)
      · intro hc
        exact absurd ((isEmpty_eq_length_zero _).mpr (by rw [hlen]; exact hc)) he

/-- Witness for C5: two elements, one resolving and one pruned. -/
theorem get_wildcard_fanout_witness :
    ([JsValue.vArr [JsValue.vNum 5]] : List JsValue).length
      = ([JsValue.vObj [("c", JsValue.vNum 5)], JsValue.vObj []].countP
          (fun e => (V1.processWildcardGet ["c"] e).isSome))
    ∧ ([JsValue.vArr [JsValue.vNum 5]] : List JsValue)
      = (([JsValue.vObj [("c", JsValue.vNum 5)], JsValue.vObj []].filter
          (fun e => (V1.processWildcardGet ["c"] e).isSome)).map
          (fun e => JsValue.vArr ((V1.processWildcardGet ["c"] e).getD []))) :=
  (get_wildcard_fanout [JsValue.vObj [("c", JsValue.vNum 5)], JsValue.vObj []] ["c"]).1
    [JsValue.vArr [JsValue.vNum 5]] rfl

/-- C9: `pick` processes its paths left to right and merges the per-path
results by plain assignment, so when two fully resolving non-wildcard paths
produce the same final key, the later path's value is what the result object
holds. -/
theorem pick_later_path_wins
    (s : JsValue) (ks1 ks2 : List String) (v1 v2 : JsValue) (k : String)
    (hs : isNullish s = false)
    (h1w : ks1.contains "[]" = false) (h2w : ks2.contains "[]" = false)
    (h1n : ks1 ≠ []) (h2n : ks2 ≠ [])
    (h1d : derefChecked s ks1 = some v1) (h1u : v1 ≠ JsValue.vUndefined)
    (h1k : ks1.getLast? = some k)
    (h2d : derefChecked s ks2 = some v2) (h2u : v2 ≠ JsValue.vUndefined)
    (h2k : ks2.getLast? = some k) :
    pickKeys s [ks1, ks2] = JsValue.vObj [(k, v2)] := by
  have h1m : "[]" ∉ ks1 := by simpa using h1w
  have h2m : "[]" ∉ ks2 := by simpa using h2w
  have r1 : stdPickResult s ks1 = some (k, v1) := by
    obtain ⟨a, t, rfl⟩ := List.exists_cons_of_ne_nil h1n
    simp only [stdPickResult]
    rw [h1d]
    cases v1
    case vUndefined => exact absurd rfl h1u
    all_goals simp [h1k]
  have r2 : stdPickResult s ks2 = some (k, v2) := by
    obtain ⟨a, t, rfl⟩ := List.exists_cons_of_ne_nil h2n
    simp only [stdPickResult]
    rw [h2d]
    cases v2
    case vUndefined => exact absurd rfl h2u
    all_goals simp [h2k]
  have p1 : pickStep s [] ks1 = [(k, v1)] := by
    simp [pickStep, h1m, r1, objSet]
  have p2 : pickStep s [(k, v1)] ks2 = [(k, v2)] := by
    simp [pickStep, h2m, r2, objSet]
  simp only [pickKeys, hs, Bool.false_eq_true, if_false,
    List.foldl_cons, List.foldl_nil, p1, p2]

/-- Witness for C9: two paths ending in the same key `k`; the result holds
the second path's value. -/
theorem pick_later_path_wins_witness :
    pickKeys (JsValue.vObj [("p", JsValue.vObj [("k", JsValue.vNum 1)]),
                            ("q", JsValue.vObj [("k", JsValue.vNum 2)])])
        [["p", "k"], ["q", "k"]]
      = JsValue.vObj [("k", JsValue.vNum 2)] :=
  pick_later_path_wins _ ["p", "k"] ["q", "k"] (JsValue.vNum 1) (JsValue.vNum 2) "k"
    rfl rfl rfl (by decide) (by decide) rfl (fun h => JsValue.noConfusion h) rfl
    rfl (fun h => JsValue.noConfusion h) rfl

/-- The sample object of the repository's test files
(src/toPath_Get_Pick.test.ts lines 6-22, src/unnamed/part_013 lines 6-22). -/
def testObject : JsValue := .vObj [("a", .vArr [
    .vObj [("b", .vArr [.vObj [("c", .vNum 42)], .vObj [("c", .vNum 43)]])],
    .vObj [("b", .vArr [.vObj [("c", .vNum 99)], .vObj [("c", .vNum 100)]])]]),
  ("x", .vNum 100)]

/-- C1 (counter-evaluation): on the claim's scenario object with the
tokenized path `a.[].b.[].c` (passed in array form, which `toPath` copies
through), the recursive `get` returns `[[[42],[43]],[[99],[100]]]` — each
leaf wrapped in an extra singleton array — and the accumulator `get` returns
the flat `[42,43,99,100]`; neither equals the `[[42,43],[99,100]]` stated by
the claim and by the repository's own tests. -/
theorem get_nested_wildcard_actual :
    V1.get 1 testObject (.arrPath ["a", "[]", "b", "[]", "c"]) JsValue.vUndefined
      = some (JsValue.vArr
          [JsValue.vArr [JsValue.vArr [JsValue.vNum 42], JsValue.vArr [JsValue.vNum 43]],
           JsValue.vArr [JsValue.vArr [JsValue.vNum 99], JsValue.vArr [JsValue.vNum 100]]])
    ∧ V2.get 1 testObject (.arrPath ["a", "[]", "b", "[]", "c"]) JsValue.vUndefined
      = some (JsValue.vArr
          [JsValue.vNum 42, JsValue.vNum 43, JsValue.vNum 99, JsValue.vNum 100]) :=
  ⟨rfl, rfl⟩

/-- The source object of the claim's `pick` scenario. -/
def pickSource : JsValue := .vObj [("a", .vArr [
  .vObj [("b", .vArr [.vObj [("c", .vNum 42)], .vObj [("c", .vNum 43)]])]])]

/-- C2 (counter-evaluation): `pick` on a path tokenizing to
`["a","[]","b","0","c"]` (the bracket-only spelling is used because the
dotted spelling `a.[].b[0].c` never gets past the repository's `toPath`)
returns `{a:{a:[{b:{"0":{c:42}}}]}}`: the root key is wrapped twice and the
numeric index step is rebuilt as a record keyed `"0"`, not an array — not the
`{a:[{b:[{c:42}]}]}` stated by the claim and the repository's tests. -/
theorem pick_wildcard_actual :
    pick 40 pickSource ["[\"a\"][][\"b\"][0][\"c\"]"]
      = some (JsValue.vObj [("a", JsValue.vObj [("a", JsValue.vArr
          [JsValue.vObj [("b", JsValue.vObj
            [("0", JsValue.vObj [("c", JsValue.vNum 42)])])]])])]) := rfl

/-- C6 (counter-evaluation): `toPath` drops every plain-name segment
(`match[1] || match[3] || ''` never falls back to the matched text), so
`"a.b.c"` tokenizes to `[]` and `get` returns the whole source object
unchanged instead of dereferencing `a.b.c`; with a `null` source and the same
path it returns `null` instead of the supplied default.  `pick` on a nullish
source does return `{}` as the claim states. -/
theorem get_plain_path_actual :
    V1.get 10 (JsValue.vObj [("a", JsValue.vObj [("b", JsValue.vObj [("c", JsValue.vNum 7)])])])
        (.strPath "a.b.c") (JsValue.vStr "dflt")
      = some (JsValue.vObj [("a", JsValue.vObj [("b", JsValue.vObj [("c", JsValue.vNum 7)])])])
    ∧ V1.get 10 JsValue.vNull (.strPath "a.b.c") (JsValue.vStr "dflt")
      = some JsValue.vNull
    ∧ toPath 10 (.strPath "a.b.c") = some []
    ∧ pickKeys JsValue.vNull [["a", "b", "c"]] = JsValue.vObj [] :=
  ⟨rfl, rfl, rfl, rfl⟩

lemma execLoop_stuck_after_dot_wildcard :
    ∀ (fuel : Nat) (acc : List String),
      execLoop (stripBackslashes (String.data "a.[].[].c")) fuel acc 1 = none := by
  intro fuel
  induction fuel with
  | zero => intro acc; rfl
  | succ n ih => intro acc; exact ih acc

/-- C7 (counter-evaluation): `toPath` does map a null path to the empty
sequence, but on `"a.[].[].c"` its exec loop hits the zero-width lookahead
match at index 1 and, as `lastIndex` never advances past a zero-length
match, never terminates — for every fuel bound the loop is still running, so
the claimed `["a","[]","[]","c"]` is never produced. -/
theorem toPath_consecutive_wildcards_actual :
    (∀ fuel : Nat, toPath fuel .nullPath = some [])
    ∧ (∀ fuel : Nat, toPath fuel (.strPath "a.[].[].c") = none) := by
  constructor
  · intro fuel
    rfl
  · intro fuel
    cases fuel with
    | zero => rfl
    | succ n => exact execLoop_stuck_after_dot_wildcard n []
